import Mathlib

/-!
# Verification of `rust-ownership` (`src/main.rs`)

A shallow embedding of the single-function Rust teaching program
`fn main()` from `src/main.rs`.  The program is a linear sequence of six
independent nested blocks demonstrating variable scope, the growable
`String` type, allocation, move, clone, and copy semantics, printing
three lines to standard output.

The embedding models:
* values (`Value`): heap-backed or literal strings, and `i32` integers;
* the environment (`Env`): a stack of entries, where a scope marker is
  pushed on block entry and popped (together with every binding made in
  the block) on block exit; a binding whose payload is `none` has been
  moved out of;
* statements (`Stmt`): exactly the statement forms that occur in
  `main.rs` (string-literal `let`, `String::from` `let`, `push_str`,
  move `let`, `.clone()` `let`, integer `let`, copy `let`, `println!`
  with a format string, nested blocks), plus the input-consuming forms
  `readLine` and `readEnvVar` that the language offers but `main` never
  uses (needed to state determinism as a real property);
* a big-step interpreter `execStmt` in the `Except` monad whose error
  branches (unbound variable, use after move, type error, missing
  input) model every way a run could fail;
* a static ownership checker `checkStmt` mirroring the borrow checker's
  move analysis: the build-time rejection of a use after move;
* a fuel-indexed interpreter `execStmtF` used to state termination as
  "the run completes within finitely many steps".
-/

/-- Runtime values: Rust `String` / `&str` content, and `i32`. -/
inductive Value where
  | str (s : String)
  | int (n : Int)
deriving DecidableEq, Repr

/-- One slot of the environment stack: either a scope marker (pushed on
`{`, popped together with everything above it on `}`), or a binding.
A binding's payload is `none` when its value has been moved out. -/
inductive Entry where
  | scope
  | bind (name : String) (val : Option Value)
deriving DecidableEq, Repr

/-- The environment: a stack of bindings and scope markers, innermost
first. -/
abbrev Env := List Entry

/-- Look up the innermost binding for `x`.  `none`: no such binding is
in scope; `some none`: bound but moved out; `some (some v)`: usable. -/
def lookupVar : Env → String → Option (Option Value)
  | [], _ => none
  | .scope :: e, x => lookupVar e x
  | .bind y v :: e, x => if y = x then some v else lookupVar e x

/-- Overwrite the payload of the innermost binding for `x` (used by
`push_str`, which mutates in place, and by a move, which marks the
source binding moved-out).  Leaves the environment unchanged when `x`
is unbound. -/
def setVar : Env → String → Option Value → Env
  | [], _, _ => []
  | .scope :: e, x, v => .scope :: setVar e x v
  | .bind y w :: e, x, v =>
      if y = x then .bind y v :: e else .bind y w :: setVar e x v

/-- Pop the current scope: drop every binding above the innermost scope
marker, and the marker itself.  Models `}` ending a block: everything
declared inside is dropped (destroyed). -/
def dropScope : Env → Env
  | [] => []
  | .scope :: e => e
  | .bind _ _ :: e => dropScope e

/-- One piece of a `println!` format string: a literal segment, or a
`\x7b\x7d` placeholder filled from a variable. -/
inductive FmtPart where
  | lit (s : String)
  | arg (x : String)
deriving DecidableEq, Repr

/-- The statement forms of `main.rs`.  `letMove` and `letCopy` are both
surface `let y = x;`: the Rust compiler elaborates the statement to a
move for `String` and to a bitwise copy for `i32`, and the embedding
records that elaboration in the constructor.  `readLine` and
`readEnvVar` do not occur in `main`; they exist so that "the program
reads no input and consults no environment" is a property of the
program, not of the language. -/
inductive Stmt where
  | letStrLit (x : String) (s : String)      -- let x = "s";  (&str literal)
  | letStringFrom (x : String) (s : String)  -- let x = String::from("s");
  | pushStr (x : String) (s : String)        -- x.push_str("s");
  | letMove (x y : String)                   -- let x = y;  (String: move)
  | letClone (x y : String)                  -- let x = y.clone();
  | letInt (x : String) (n : Int)            -- let x = n;  (i32)
  | letCopy (x y : String)                   -- let x = y;  (i32: copy)
  | println (parts : List FmtPart)           -- println!("...", ...);
  | readLine (x : String)                    -- read a line of stdin (unused by main)
  | readEnvVar (x name : String)             -- read an environment variable (unused by main)
  | block (body : List Stmt)                 -- { body }
deriving Repr

/-- The ways a run of the embedded program could fail at runtime. -/
inductive RErr where
  | unbound (x : String)
  | useAfterMove (x : String)
  | typeError (x : String)
  | noInput
  | noEnvVar (name : String)
deriving DecidableEq, Repr

/-- Process state: the environment, the remaining lines of standard
input, the OS environment variables, and the standard-output lines
written so far (each line is printed with a trailing newline; see
`stdoutOf`). -/
structure PState where
  env : Env
  stdin : List String
  osEnv : String → Option String
  out : List String

/-- Render one format-string piece: a literal verbatim, a placeholder
by the `Display` form of the variable's value (the string content, or
the decimal form of the integer). -/
def renderPart (e : Env) : FmtPart → Except RErr String
  | .lit s => .ok s
  | .arg x =>
      match lookupVar e x with
      | none => .error (.unbound x)
      | some none => .error (.useAfterMove x)
      | some (some (.str s)) => .ok s
      | some (some (.int n)) => .ok (toString n)

/-- Render a whole format string against the environment. -/
def renderParts (e : Env) : List FmtPart → Except RErr String
  | [] => .ok ""
  | p :: ps => do
      let s ← renderPart e p
      let rest ← renderParts e ps
      .ok (s ++ rest)

/-- Semantics of the non-block statements.  Reading a moved-out binding
is a runtime error here; `checkStmt` below is the static analysis that
rejects such programs before they run. -/
def execPrim : Stmt → PState → Except RErr PState
  | .letStrLit x s, st => .ok { st with env := .bind x (some (.str s)) :: st.env }
  | .letStringFrom x s, st => .ok { st with env := .bind x (some (.str s)) :: st.env }
  | .pushStr x s, st =>
      match lookupVar st.env x with
      | none => .error (.unbound x)
      | some none => .error (.useAfterMove x)
      | some (some (.int _)) => .error (.typeError x)
      | some (some (.str t)) =>
          .ok { st with env := setVar st.env x (some (.str (t ++ s))) }
  | .letMove x y, st =>
      match lookupVar st.env y with
      | none => .error (.unbound y)
      | some none => .error (.useAfterMove y)
      | some (some v) =>
          .ok { st with env := .bind x (some v) :: setVar st.env y none }
  | .letClone x y, st =>
      match lookupVar st.env y with
      | none => .error (.unbound y)
      | some none => .error (.useAfterMove y)
      | some (some v) => .ok { st with env := .bind x (some v) :: st.env }
  | .letInt x n, st => .ok { st with env := .bind x (some (.int n)) :: st.env }
  | .letCopy x y, st =>
      match lookupVar st.env y with
      | none => .error (.unbound y)
      | some none => .error (.useAfterMove y)
      | some (some v) => .ok { st with env := .bind x (some v) :: st.env }
  | .println ps, st => do
      let line ← renderParts st.env ps
      .ok { st with out := st.out ++ [line] }
  | .readLine x, st =>
      match st.stdin with
      | [] => .error .noInput
      | l :: rest =>
          .ok { st with env := .bind x (some (.str l)) :: st.env, stdin := rest }
  | .readEnvVar x name, st =>
      match st.osEnv name with
      | none => .error (.noEnvVar name)
      | some v => .ok { st with env := .bind x (some (.str v)) :: st.env }
  | .block _, st => .ok st   -- unreachable: `execStmt` intercepts blocks

mutual

/-- Big-step interpreter.  A block pushes a scope marker, runs its
body, and pops the scope: every binding made inside is dropped. -/
def execStmt : Stmt → PState → Except RErr PState
  | .block body, st => do
      let st' ← execStmts body { st with env := .scope :: st.env }
      .ok { st' with env := dropScope st'.env }
  | s, st => execPrim s st
termination_by structural s => s

/-- Run a statement sequence left to right. -/
def execStmts : List Stmt → PState → Except RErr PState
  | [], st => .ok st
  | s :: rest, st => do
      let st' ← execStmt s st
      execStmts rest st'
termination_by structural l => l

end

/-- The initial process state: empty environment, given standard input
and OS environment, no output yet. -/
def initState (stdin : List String) (osEnv : String → Option String) : PState :=
  { env := [], stdin := stdin, osEnv := osEnv, out := [] }

/-! ## The program `fn main()` of `src/main.rs`, block by block -/

/-- Block 1, "Variable Scope" (`main.rs` lines 3-8):
`let s = "hello";` inside a nested block; `s` is never used. -/
def block1Body : List Stmt := [.letStrLit "s" "hello"]

/-- Block 2, "The String Type" (`main.rs` lines 11-17):
`let mut s = String::from("hello"); s.push_str(", world!"); println!("{}", s);`. -/
def block2Body : List Stmt :=
  [.letStringFrom "s" "hello",
   .pushStr "s" ", world!",
   .println [.arg "s"]]

/-- Block 3, "Memory and Allocation" (`main.rs` lines 20-27): a doubly
nested block declaring `let s = String::from("hello");` and nothing else. -/
def block3Body : List Stmt := [.block [.letStringFrom "s" "hello"]]

/-- Block 4, "Move" (`main.rs` lines 30-35):
`let s1 = String::from("hello"); let s2 = s1;` — the commented-out
`println!("{}, world!", s1)` is `movedUse` below. -/
def block4Body : List Stmt :=
  [.letStringFrom "s1" "hello",
   .letMove "s2" "s1"]

/-- The commented-out line 34 of `main.rs`,
`println!("{}, world!", s1);`: the attempted use of `s1` after the move. -/
def movedUse : Stmt := .println [.arg "s1", .lit ", world!"]

/-- Block 5, "Clone" (`main.rs` lines 38-43):
`let s1 = String::from("hello"); let s2 = s1.clone();
println!("s1 = {}, s2 = {}", s1, s2);`. -/
def block5Body : List Stmt :=
  [.letStringFrom "s1" "hello",
   .letClone "s2" "s1",
   .println [.lit "s1 = ", .arg "s1", .lit ", s2 = ", .arg "s2"]]

/-- Block 6, "Copy" (`main.rs` lines 46-51):
`let x = 5; let y = x; println!("x = {}, y = {}", x, y);`. -/
def block6Body : List Stmt :=
  [.letInt "x" 5,
   .letCopy "y" "x",
   .println [.lit "x = ", .arg "x", .lit ", y = ", .arg "y"]]

/-- `fn main()`: the six nested blocks in source order. -/
def mainBody : List Stmt :=
  [.block block1Body,
   .block block2Body,
   .block block3Body,
   .block block4Body,
   .block block5Body,
   .block block6Body]

/-- The standard-output byte stream of a finished state: each recorded
line followed by a newline (as `println!` emits). -/
def stdoutOf (st : PState) : String :=
  String.join (st.out.map (fun l => l ++ "\n"))

/-- The output lines of a run: the lines written before an error, or
all lines on success.  A run that errors before writing anything has
no output; for `main`, which never errors, this is just the final
output. -/
def outputOf : Except RErr PState → List String
  | .ok st => st.out
  | .error _ => []

/-- The process exit code: 0 on success, 101 on a runtime failure
(the code a Rust panic aborts with). -/
def exitCodeOf : Except RErr PState → Nat
  | .ok _ => 0
  | .error _ => 101

/-- The run of the whole program with empty standard input and OS
environment (neither is consulted; see the determinism theorem). -/
def mainRun : Except RErr PState := execStmts mainBody (initState [] (fun _ => none))

/-- The state reached inside the clone block right after
`let s1 = String::from("hello"); let s2 = s1.clone();`
(`main.rs` lines 39-40): two independent owners of equal content. -/
def cloneSt : PState :=
  { env := [.bind "s2" (some (.str "hello")), .bind "s1" (some (.str "hello"))],
    stdin := [], osEnv := fun _ => none, out := [] }

/-! ## Static ownership checking (the borrow checker's move analysis)

`checkStmt` tracks the list of bindings that are live (in scope and not
moved out).  It rejects — returns `none` for — any statement that reads
a binding that is not live, which is exactly rustc's build-time
rejection of a use after move. -/

/-- The variables a format string reads. -/
def readsOfParts : List FmtPart → List String
  | [] => []
  | .lit _ :: ps => readsOfParts ps
  | .arg x :: ps => x :: readsOfParts ps

/-- The variables a statement itself reads (not looking inside nested
blocks, whose reads are checked against their own scope). -/
def directReads : Stmt → List String
  | .pushStr x _ => [x]
  | .letMove _ y => [y]
  | .letClone _ y => [y]
  | .letCopy _ y => [y]
  | .println ps => readsOfParts ps
  | _ => []

mutual

/-- Move analysis for one statement: given the live bindings, return
the live bindings afterwards, or `none` if the statement uses a binding
that is dead (out of scope or moved out).  A `letMove` kills its
source; a `letClone` and a `letCopy` keep theirs.  A nested block's own
declarations die at its end, and an outer binding stays live only if
the block's body did not move out of it. -/
def checkStmt : Stmt → List String → Option (List String)
  | .letStrLit x _, live => some (x :: live)
  | .letStringFrom x _, live => some (x :: live)
  | .pushStr x _, live => if x ∈ live then some live else none
  | .letMove x y, live => if y ∈ live then some (x :: live.erase y) else none
  | .letClone x y, live => if y ∈ live then some (x :: live) else none
  | .letInt x _, live => some (x :: live)
  | .letCopy x y, live => if y ∈ live then some (x :: live) else none
  | .println ps, live =>
      if ∀ z ∈ readsOfParts ps, z ∈ live then some live else none
  | .readLine x, live => some (x :: live)
  | .readEnvVar x _, live => some (x :: live)
  | .block body, live => do
      let live' ← checkStmts body live
      some (live.filter (fun z => z ∈ live'))
termination_by structural s => s

/-- Move analysis for a statement sequence. -/
def checkStmts : List Stmt → List String → Option (List String)
  | [], live => some live
  | s :: rest, live => do
      let live' ← checkStmt s live
      checkStmts rest live'
termination_by structural l => l

end

/-! ## A fuel-indexed interpreter, for stating termination -/

mutual

/-- The interpreter again, charging one unit of fuel per statement and
per block entry; `none` means the fuel ran out before the statement
finished. -/
def execStmtF : Nat → Stmt → PState → Option (Except RErr PState)
  | 0, _, _ => none
  | n + 1, .block body, st =>
      match execStmtsF n body { st with env := .scope :: st.env } with
      | none => none
      | some (.error e) => some (.error e)
      | some (.ok st') => some (.ok { st' with env := dropScope st'.env })
  | _ + 1, s, st => some (execPrim s st)
termination_by structural n => n

/-- Fuel-indexed run of a statement sequence. -/
def execStmtsF : Nat → List Stmt → PState → Option (Except RErr PState)
  | 0, _, _ => none
  | _ + 1, [], st => some (.ok st)
  | n + 1, s :: rest, st =>
      match execStmtF n s st with
      | none => none
      | some (.error e) => some (.error e)
      | some (.ok st') => execStmtsF n rest st'
termination_by structural n => n

end

/-! ## Scope discipline: helper lemmas

`shape` forgets the values of an environment, keeping only the pattern
of scope markers and binding names.  Execution can only push new
bindings on top of the existing shape (never disturb what is below),
and a block restores the shape it started from — which is the formal
content of "no entity outlives its enclosing scope". -/

/-- The pattern of an environment: `none` for a scope marker, `some x`
for a binding of `x`. -/
def shape : Env → List (Option String)
  | [] => []
  | .scope :: e => none :: shape e
  | .bind x _ :: e => some x :: shape e

theorem shape_setVar (e : Env) (x : String) (v : Option Value) :
    shape (setVar e x v) = shape e := by
  induction e with
  | nil => rfl
  | cons entry e ih =>
      cases entry with
      | scope => simp [setVar, shape, ih]
      | bind y w =>
          by_cases hxy : y = x <;> simp [setVar, shape, hxy, ih]

theorem lookupVar_eq_none_iff (e : Env) (x : String) :
    lookupVar e x = none ↔ some x ∉ shape e := by
  induction e with
  | nil => simp [lookupVar, shape]
  | cons entry e ih =>
      cases entry with
      | scope => simp [lookupVar, shape, ih]
      | bind y w =>
          by_cases hxy : y = x
          · subst hxy; simp [lookupVar, shape]
          · simp [lookupVar, shape, hxy, ih, Ne.symm hxy]

theorem shape_dropScope (e : Env) :
    ∀ (bs : List String) (t : List (Option String)),
      shape e = bs.map some ++ none :: t → shape (dropScope e) = t := by
  induction e with
  | nil =>
      intro bs t h
      cases bs <;> simp [shape] at h
  | cons entry e ih =>
      intro bs t h
      cases entry with
      | scope =>
          cases bs with
          | nil =>
              simp [shape] at h
              simpa [dropScope] using h
          | cons b bs' => simp [shape] at h
      | bind y w =>
          cases bs with
          | nil => simp [shape] at h
          | cons b bs' =>
              simp [shape] at h
              exact ih bs' t h.2

/-- A successful primitive step only pushes fresh bindings on top of
the incoming environment shape. -/
theorem execPrim_shape (s : Stmt) (st st' : PState)
    (h : execPrim s st = .ok st') :
    ∃ bs : List String, shape st'.env = bs.map some ++ shape st.env := by
  cases s with
  | letStrLit x v =>
      refine ⟨[x], ?_⟩
      simp [execPrim] at h
      simp [← h, shape]
  | letStringFrom x v =>
      refine ⟨[x], ?_⟩
      simp [execPrim] at h
      simp [← h, shape]
  | pushStr x v =>
      refine ⟨[], ?_⟩
      simp [execPrim] at h
      cases hl : lookupVar st.env x with
      | none => simp [hl] at h
      | some w =>
          cases w with
          | none => simp [hl] at h
          | some u =>
              cases u with
              | str t => simp [hl] at h; simp [← h, shape_setVar]
              | int n => simp [hl] at h
  | letMove x y =>
      simp [execPrim] at h
      cases hl : lookupVar st.env y with
      | none => simp [hl] at h
      | some w =>
          cases w with
          | none => simp [hl] at h
          | some u =>
              refine ⟨[x], ?_⟩
              simp [hl] at h
              simp [← h, shape, shape_setVar]
  | letClone x y =>
      simp [execPrim] at h
      cases hl : lookupVar st.env y with
      | none => simp [hl] at h
      | some w =>
          cases w with
          | none => simp [hl] at h
          | some u =>
              refine ⟨[x], ?_⟩
              simp [hl] at h
              simp [← h, shape]
  | letInt x n =>
      refine ⟨[x], ?_⟩
      simp [execPrim] at h
      simp [← h, shape]
  | letCopy x y =>
      simp [execPrim] at h
      cases hl : lookupVar st.env y with
      | none => simp [hl] at h
      | some w =>
          cases w with
          | none => simp [hl] at h
          | some u =>
              refine ⟨[x], ?_⟩
              simp [hl] at h
              simp [← h, shape]
  | println ps =>
      refine ⟨[], ?_⟩
      simp [execPrim] at h
      cases hr : renderParts st.env ps with
      | error e => simp [hr, Bind.bind, Except.bind] at h
      | ok line =>
          simp [hr, Bind.bind, Except.bind] at h
          simp [← h]
  | readLine x =>
      simp [execPrim] at h
      cases hs : st.stdin with
      | nil => simp [hs] at h
      | cons l rest =>
          refine ⟨[x], ?_⟩
          simp [hs] at h
          simp [← h, shape]
  | readEnvVar x name =>
      simp [execPrim] at h
      cases he : st.osEnv name with
      | none => simp [he] at h
      | some v =>
          refine ⟨[x], ?_⟩
          simp [he] at h
          simp [← h, shape]
  | block body =>
      refine ⟨[], ?_⟩
      simp [execPrim] at h
      simp [← h]

mutual

/-- A successful statement only pushes fresh bindings on top of the
incoming environment shape; in particular a block leaves the shape
exactly as it found it. -/
theorem execStmt_shape : ∀ (s : Stmt) (st st' : PState),
    execStmt s st = .ok st' →
    ∃ bs : List String, shape st'.env = bs.map some ++ shape st.env
  | .block body, st, st', h => by
      simp only [execStmt] at h
      cases hb : execStmts body { st with env := .scope :: st.env } with
      | error e => simp [hb, Bind.bind, Except.bind] at h
      | ok st₁ =>
          simp only [hb, Bind.bind, Except.bind, Except.ok.injEq] at h
          obtain ⟨bs, hbs⟩ := execStmts_shape body _ _ hb
          refine ⟨[], ?_⟩
          have hdrop : shape (dropScope st₁.env) = shape st.env := by
            refine shape_dropScope st₁.env bs (shape st.env) ?_
            simpa [shape] using hbs
          simp [← h, hdrop]
  | .letStrLit x v, st, st', h => by
      simp only [execStmt] at h; exact execPrim_shape _ _ _ h
  | .letStringFrom x v, st, st', h => by
      simp only [execStmt] at h; exact execPrim_shape _ _ _ h
  | .pushStr x v, st, st', h => by
      simp only [execStmt] at h; exact execPrim_shape _ _ _ h
  | .letMove x y, st, st', h => by
      simp only [execStmt] at h; exact execPrim_shape _ _ _ h
  | .letClone x y, st, st', h => by
      simp only [execStmt] at h; exact execPrim_shape _ _ _ h
  | .letInt x n, st, st', h => by
      simp only [execStmt] at h; exact execPrim_shape _ _ _ h
  | .letCopy x y, st, st', h => by
      simp only [execStmt] at h; exact execPrim_shape _ _ _ h
  | .println ps, st, st', h => by
      simp only [execStmt] at h; exact execPrim_shape _ _ _ h
  | .readLine x, st, st', h => by
      simp only [execStmt] at h; exact execPrim_shape _ _ _ h
  | .readEnvVar x name, st, st', h => by
      simp only [execStmt] at h; exact execPrim_shape _ _ _ h

/-- As `execStmt_shape`, for statement sequences. -/
theorem execStmts_shape : ∀ (l : List Stmt) (st st' : PState),
    execStmts l st = .ok st' →
    ∃ bs : List String, shape st'.env = bs.map some ++ shape st.env
  | [], st, st', h => by
      simp only [execStmts, Except.ok.injEq] at h
      exact ⟨[], by simp [← h]⟩
  | s :: rest, st, st', h => by
      simp only [execStmts] at h
      cases hs : execStmt s st with
      | error e => simp [hs, Bind.bind, Except.bind] at h
      | ok st₁ =>
          simp only [hs, Bind.bind, Except.bind] at h
          obtain ⟨bs₁, h₁⟩ := execStmt_shape s st st₁ hs
          obtain ⟨bs₂, h₂⟩ := execStmts_shape rest st₁ st' h
          exact ⟨bs₂ ++ bs₁, by simp [h₂, h₁, List.map_append]⟩

end

/-! ## Further helper lemmas -/

/-- The ownership checker rejects any statement that reads a binding
that is not live (out of scope or moved out): the build-time
use-after-move rejection. -/
theorem checkStmt_of_dead_read (s : Stmt) (x : String) (live : List String)
    (hx : x ∈ directReads s) (hdead : x ∉ live) : checkStmt s live = none := by
  cases s with
  | pushStr y v =>
      simp only [directReads, List.mem_singleton] at hx
      subst hx
      simp [checkStmt, hdead]
  | letMove a y =>
      simp only [directReads, List.mem_singleton] at hx
      subst hx
      simp [checkStmt, hdead]
  | letClone a y =>
      simp only [directReads, List.mem_singleton] at hx
      subst hx
      simp [checkStmt, hdead]
  | letCopy a y =>
      simp only [directReads, List.mem_singleton] at hx
      subst hx
      simp [checkStmt, hdead]
  | println ps =>
      simp only [directReads] at hx
      simp only [checkStmt]
      exact if_neg (fun hall => hdead (hall x hx))
  | letStrLit a v => simp [directReads] at hx
  | letStringFrom a v => simp [directReads] at hx
  | letInt a n => simp [directReads] at hx
  | readLine a => simp [directReads] at hx
  | readEnvVar a n => simp [directReads] at hx
  | block body => simp [directReads] at hx


/-- One extra unit of fuel never changes a result the fuel-indexed
interpreter already delivers. -/
theorem execStmtF_succ : ∀ (n : Nat),
    (∀ (s : Stmt) (st : PState) (r : Except RErr PState),
        execStmtF n s st = some r → execStmtF (n + 1) s st = some r)
    ∧ (∀ (l : List Stmt) (st : PState) (r : Except RErr PState),
        execStmtsF n l st = some r → execStmtsF (n + 1) l st = some r) := by
  intro n
  induction n with
  | zero =>
      constructor
      · intro s st r h; simp [execStmtF] at h
      · intro l st r h; simp [execStmtsF] at h
  | succ n ih =>
      obtain ⟨ih1, ih2⟩ := ih
      constructor
      · intro s st r h
        cases s with
        | block body =>
            simp only [execStmtF] at h ⊢
            cases hb : execStmtsF n body { st with env := .scope :: st.env } with
            | none => simp [hb] at h
            | some rb =>
                rw [ih2 _ _ _ hb]
                rw [hb] at h
                exact h
        | letStrLit x v => simpa [execStmtF] using h
        | letStringFrom x v => simpa [execStmtF] using h
        | pushStr x v => simpa [execStmtF] using h
        | letMove x y => simpa [execStmtF] using h
        | letClone x y => simpa [execStmtF] using h
        | letInt x m => simpa [execStmtF] using h
        | letCopy x y => simpa [execStmtF] using h
        | println ps => simpa [execStmtF] using h
        | readLine x => simpa [execStmtF] using h
        | readEnvVar x nm => simpa [execStmtF] using h
      · intro l st r h
        cases l with
        | nil => simpa [execStmtsF] using h
        | cons s rest =>
            simp only [execStmtsF] at h ⊢
            cases hs : execStmtF n s st with
            | none => simp [hs] at h
            | some rs =>
                rw [ih1 _ _ _ hs]
                rw [hs] at h
                cases rs with
                | error e => exact h
                | ok st₁ => exact ih2 _ _ _ h

/-- Fuel monotonicity for single statements. -/
theorem execStmtF_mono {n m : Nat} (hnm : n ≤ m) {s : Stmt} {st : PState}
    {r : Except RErr PState} (h : execStmtF n s st = some r) :
    execStmtF m s st = some r := by
  induction m, hnm using Nat.le_induction with
  | base => exact h
  | succ m hm ih => exact (execStmtF_succ m).1 _ _ _ ih

/-- Fuel monotonicity for statement sequences. -/
theorem execStmtsF_mono {n m : Nat} (hnm : n ≤ m) {l : List Stmt} {st : PState}
    {r : Except RErr PState} (h : execStmtsF n l st = some r) :
    execStmtsF m l st = some r := by
  induction m, hnm using Nat.le_induction with
  | base => exact h
  | succ m hm ih => exact (execStmtF_succ m).2 _ _ _ ih

mutual

/-- Fuel adequacy: enough fuel always exists for the fuel-indexed
interpreter to deliver the big-step result of a statement. -/
theorem execStmtF_adequate : ∀ (s : Stmt) (st : PState),
    ∃ n : Nat, execStmtF n s st = some (execStmt s st)
  | .block body, st => by
      obtain ⟨n, hn⟩ := execStmtsF_adequate body { st with env := .scope :: st.env }
      refine ⟨n + 1, ?_⟩
      simp only [execStmtF, execStmt, hn]
      cases execStmts body { st with env := .scope :: st.env } with
      | error e => simp [Bind.bind, Except.bind]
      | ok st₁ => simp [Bind.bind, Except.bind]
  | .letStrLit x v, st => ⟨1, by simp [execStmtF, execStmt]⟩
  | .letStringFrom x v, st => ⟨1, by simp [execStmtF, execStmt]⟩
  | .pushStr x v, st => ⟨1, by simp [execStmtF, execStmt]⟩
  | .letMove x y, st => ⟨1, by simp [execStmtF, execStmt]⟩
  | .letClone x y, st => ⟨1, by simp [execStmtF, execStmt]⟩
  | .letInt x m, st => ⟨1, by simp [execStmtF, execStmt]⟩
  | .letCopy x y, st => ⟨1, by simp [execStmtF, execStmt]⟩
  | .println ps, st => ⟨1, by simp [execStmtF, execStmt]⟩
  | .readLine x, st => ⟨1, by simp [execStmtF, execStmt]⟩
  | .readEnvVar x nm, st => ⟨1, by simp [execStmtF, execStmt]⟩
termination_by structural s => s

/-- Fuel adequacy for statement sequences. -/
theorem execStmtsF_adequate : ∀ (l : List Stmt) (st : PState),
    ∃ n : Nat, execStmtsF n l st = some (execStmts l st)
  | [], st => ⟨1, by simp [execStmtsF, execStmts]⟩
  | s :: rest, st => by
      obtain ⟨n₁, h₁⟩ := execStmtF_adequate s st
      cases he : execStmt s st with
      | error e =>
          refine ⟨n₁ + 1, ?_⟩
          rw [he] at h₁
          simp only [execStmtsF, h₁]
          simp [execStmts, he, Bind.bind, Except.bind]
      | ok st₁ =>
          obtain ⟨n₂, h₂⟩ := execStmtsF_adequate rest st₁
          refine ⟨max n₁ n₂ + 1, ?_⟩
          rw [he] at h₁
          have h₁m : execStmtF (max n₁ n₂) s st = some (.ok st₁) :=
            execStmtF_mono (Nat.le_max_left _ _) h₁
          have h₂m : execStmtsF (max n₁ n₂) rest st₁ = some (execStmts rest st₁) :=
            execStmtsF_mono (Nat.le_max_right _ _) h₂
          simp only [execStmtsF, h₁m, h₂m]
          simp [execStmts, he, Bind.bind, Except.bind]
termination_by structural l => l

end

/-- The fully evaluated run of `main`, for any standard input and OS
environment: it succeeds with an empty final environment and exactly
the three expected output lines. -/
theorem mainBody_run (stdin : List String) (osEnv : String → Option String) :
    execStmts mainBody (initState stdin osEnv) =
      .ok { env := [], stdin := stdin, osEnv := osEnv,
            out := ["hello, world!", "s1 = hello, s2 = hello", "x = 5, y = 5"] } := by
  simp [execStmts, execStmt, execPrim, mainBody, block1Body, block2Body, block3Body,
        block4Body, block5Body, block6Body, renderParts, renderPart, lookupVar, setVar,
        dropScope, initState, Bind.bind, Except.bind]
  decide

/-! ## The claims -/

/-- C1: running the program produces exactly three standard-output
lines, in this order — "hello, world!", then "s1 = hello, s2 = hello",
then "x = 5, y = 5" — each followed by a trailing newline, and no other
output. -/
theorem main_output_exact :
    ∃ st : PState, mainRun = .ok st
      ∧ st.out = ["hello, world!", "s1 = hello, s2 = hello", "x = 5, y = 5"]
      ∧ stdoutOf st = "hello, world!\ns1 = hello, s2 = hello\nx = 5, y = 5\n" :=
  ⟨_, mainBody_run [] (fun _ => none), rfl, by decide⟩

/-- C2: in the growable-text block, appending ", world!" to the mutable
string initialized to "hello" yields exactly the concatenation
"hello, world!", and that value is the one the block prints. -/
theorem growable_text_append :
    ("hello" ++ ", world!" : String) = "hello, world!"
    ∧ ∃ st : PState, execStmts block2Body (initState [] (fun _ => none)) = .ok st
        ∧ lookupVar st.env "s" = some (some (.str ("hello" ++ ", world!")))
        ∧ st.out = ["hello, world!"] :=
  ⟨rfl,
   ⟨{ env := [.bind "s" (some (.str "hello, world!"))], stdin := [],
      osEnv := fun _ => none, out := ["hello, world!"] },
    rfl, rfl, rfl⟩⟩

/-- C3: in the clone block, after `let s2 = s1.clone()` both bindings
are still usable (statically live and not moved out at runtime), each
independently holds "hello", and the printed line shows both matching
the original content. -/
theorem clone_block_both_usable :
    (∃ st : PState, execStmts block5Body (initState [] (fun _ => none)) = .ok st
      ∧ lookupVar st.env "s1" = some (some (.str "hello"))
      ∧ lookupVar st.env "s2" = some (some (.str "hello"))
      ∧ st.out = ["s1 = hello, s2 = hello"])
    ∧ checkStmts block5Body [] = some ["s2", "s1"] :=
  ⟨⟨{ env := [.bind "s2" (some (.str "hello")), .bind "s1" (some (.str "hello"))],
      stdin := [], osEnv := fun _ => none, out := ["s1 = hello, s2 = hello"] },
    rfl, rfl, rfl, rfl⟩,
   rfl⟩

/-- C4: in the copy block, after `let y = x` both bindings are usable
and both equal 5; the source stays statically live (no ownership
transfer), and the block prints both. -/
theorem copy_block_both_usable :
    (∃ st : PState, execStmts block6Body (initState [] (fun _ => none)) = .ok st
      ∧ lookupVar st.env "x" = some (some (.int 5))
      ∧ lookupVar st.env "y" = some (some (.int 5))
      ∧ st.out = ["x = 5, y = 5"])
    ∧ checkStmts block6Body [] = some ["y", "x"] :=
  ⟨⟨{ env := [.bind "y" (some (.int 5)), .bind "x" (some (.int 5))],
      stdin := [], osEnv := fun _ => none, out := ["x = 5, y = 5"] },
    rfl, rfl, rfl, rfl⟩,
   rfl⟩

/-- C5: in the move block, after `let s2 = s1` the destination holds
"hello" while the source binding is moved out at runtime and dead in
the static analysis; every statement that attempts to read `s1`
afterwards — in particular the commented-out `println!` of line 34 —
is rejected by the build-time ownership check. -/
theorem move_block_source_invalidated :
    (∃ st : PState, execStmts block4Body (initState [] (fun _ => none)) = .ok st
      ∧ lookupVar st.env "s2" = some (some (.str "hello"))
      ∧ lookupVar st.env "s1" = some none)
    ∧ checkStmts block4Body [] = some ["s2"]
    ∧ (∀ s : Stmt, "s1" ∈ directReads s → checkStmt s ["s2"] = none)
    ∧ checkStmt movedUse ["s2"] = none := by
  refine ⟨⟨{ env := [.bind "s2" (some (.str "hello")), .bind "s1" none],
             stdin := [], osEnv := fun _ => none, out := [] },
           rfl, rfl, rfl⟩, rfl, ?_, ?_⟩
  · intro s hs
    exact checkStmt_of_dead_read s "s1" ["s2"] hs (by decide)
  · exact checkStmt_of_dead_read movedUse "s1" ["s2"] (by decide) (by decide)

/-- Witness for `move_block_source_invalidated`: the rejection clause
applied to the concrete attempted use, the commented-out
`println!("{}, world!", s1)` of `main.rs` line 34. -/
theorem move_block_source_invalidated_witness :
    checkStmt movedUse ["s2"] = none :=
  move_block_source_invalidated.2.2.1 movedUse (by decide)

/-- C6: the two owners produced by the clone block are independent:
growing either one by any suffix leaves the other's content exactly
"hello", unchanged. -/
theorem clone_owners_independent :
    execStmts [.letStringFrom "s1" "hello", .letClone "s2" "s1"]
        (initState [] (fun _ => none)) = .ok cloneSt
    ∧ (∀ t : String, ∃ st : PState, execStmt (.pushStr "s1" t) cloneSt = .ok st
        ∧ lookupVar st.env "s1" = some (some (.str ("hello" ++ t)))
        ∧ lookupVar st.env "s2" = some (some (.str "hello")))
    ∧ (∀ t : String, ∃ st : PState, execStmt (.pushStr "s2" t) cloneSt = .ok st
        ∧ lookupVar st.env "s2" = some (some (.str ("hello" ++ t)))
        ∧ lookupVar st.env "s1" = some (some (.str "hello"))) := by
  refine ⟨rfl, ?_, ?_⟩
  · intro t
    exact ⟨{ env := [.bind "s2" (some (.str "hello")),
                     .bind "s1" (some (.str ("hello" ++ t)))],
             stdin := [], osEnv := fun _ => none, out := [] },
           rfl, rfl, rfl⟩
  · intro t
    exact ⟨{ env := [.bind "s2" (some (.str ("hello" ++ t))),
                     .bind "s1" (some (.str "hello"))],
             stdin := [], osEnv := fun _ => none, out := [] },
           rfl, rfl, rfl⟩

/-- A successfully executed block restores exactly the environment
shape it entered with: every binding declared inside is gone. -/
theorem execStmt_block_shape (body : List Stmt) (st st' : PState)
    (h : execStmt (.block body) st = .ok st') : shape st'.env = shape st.env := by
  simp only [execStmt] at h
  cases hb : execStmts body { st with env := .scope :: st.env } with
  | error e => simp [hb, Bind.bind, Except.bind] at h
  | ok st₁ =>
      simp only [hb, Bind.bind, Except.bind, Except.ok.injEq] at h
      obtain ⟨bs, hbs⟩ := execStmts_shape body _ _ hb
      have hdrop : shape (dropScope st₁.env) = shape st.env := by
        refine shape_dropScope st₁.env bs (shape st.env) ?_
        simpa [shape] using hbs
      simp [← h, hdrop]

/-- C7: scoping and lifecycle — a name with no binding before a nested
block has none after it (everything declared inside is inaccessible
outside); a block restores the environment shape it entered with (no
entity outlives its enclosing scope); and after the whole of `main`
the environment is empty, so every name bound inside the six blocks
(`s`, `s1`, `s2`, `x`, `y`) is inaccessible. -/
theorem block_scoping :
    (∀ (body : List Stmt) (st st' : PState) (x : String),
        execStmt (.block body) st = .ok st' →
        lookupVar st.env x = none → lookupVar st'.env x = none)
    ∧ (∀ (body : List Stmt) (st st' : PState),
        execStmt (.block body) st = .ok st' → shape st'.env = shape st.env)
    ∧ (∃ st : PState, mainRun = .ok st ∧ st.env = []
        ∧ lookupVar st.env "s" = none ∧ lookupVar st.env "s1" = none
        ∧ lookupVar st.env "s2" = none ∧ lookupVar st.env "x" = none
        ∧ lookupVar st.env "y" = none) := by
  refine ⟨?_, execStmt_block_shape, ?_⟩
  · intro body st st' x h hx
    rw [lookupVar_eq_none_iff] at hx ⊢
    rw [execStmt_block_shape body st st' h]
    exact hx
  · exact ⟨_, mainBody_run [] (fun _ => none), rfl, rfl, rfl, rfl, rfl, rfl⟩

/-- Witness for `block_scoping`: block 1 (`main.rs` lines 3-8) run
from the initial state leaves `s` unbound afterwards. -/
theorem block_scoping_witness :
    lookupVar (initState [] (fun _ => none)).env "s" = none :=
  block_scoping.1 block1Body (initState [] (fun _ => none))
    (initState [] (fun _ => none)) "s" rfl rfl

/-- C8: no runtime error path — on every standard input and OS
environment the run of `main` succeeds (no error branch of the
interpreter is ever taken) and the process exits with code 0. -/
theorem main_no_runtime_error :
    ∀ (stdin : List String) (osEnv : String → Option String),
      (∃ st : PState, execStmts mainBody (initState stdin osEnv) = .ok st)
      ∧ exitCodeOf (execStmts mainBody (initState stdin osEnv)) = 0 :=
  fun stdin osEnv =>
    ⟨⟨_, mainBody_run stdin osEnv⟩,
     by rw [mainBody_run stdin osEnv]; rfl⟩

/-- C9: determinism — `main` never reads standard input or the OS
environment, so any two runs produce the identical standard-output
line sequence, namely the three expected lines. -/
theorem main_deterministic :
    ∀ (i₁ i₂ : List String) (e₁ e₂ : String → Option String),
      outputOf (execStmts mainBody (initState i₁ e₁))
          = outputOf (execStmts mainBody (initState i₂ e₂))
      ∧ outputOf (execStmts mainBody (initState i₁ e₁))
          = ["hello, world!", "s1 = hello, s2 = hello", "x = 5, y = 5"] :=
  fun i₁ i₂ e₁ e₂ =>
    ⟨by rw [mainBody_run i₁ e₁, mainBody_run i₂ e₂]; simp [outputOf],
     by rw [mainBody_run i₁ e₁]; rfl⟩

/-- C10: termination — on every run (any standard input and OS
environment) the program completes after finitely many steps: some
finite amount of fuel lets the fuel-indexed interpreter reach the
successful final state of the big-step run. -/
theorem main_terminates :
    ∀ (stdin : List String) (osEnv : String → Option String),
      ∃ (n : Nat) (st : PState),
        execStmtsF n mainBody (initState stdin osEnv) = some (.ok st)
        ∧ execStmts mainBody (initState stdin osEnv) = .ok st := by
  intro stdin osEnv
  obtain ⟨n, hn⟩ := execStmtsF_adequate mainBody (initState stdin osEnv)
  rw [mainBody_run stdin osEnv] at hn
  exact ⟨n, _, hn, mainBody_run stdin osEnv⟩
